import Mathlib

/-!
Verification development for the rive-android worker-thread pool
(`src/cpp/src/helpers/worker_thread.cpp`) and the state-machine JNI binding
(`src/cpp/src/bindings/bindings_state_machine_instance.cpp`).

Modelling choices:
* C++ heap pointers to `WorkerThread<EGLThreadState>` become natural-number
  addresses; a `ThreadManager` value carries an association list `heap`
  mapping addresses to `Worker` records, together with the pool of idle
  addresses (`mThreadPool`, a `std::stack`, modelled as a list whose head is
  the stack top) and an allocation counter `nextId` standing for the C++
  allocator handing out fresh addresses.
* Callbacks (`std::function<void()>`) are identified by opaque labels; the
  observable behaviour of an operation is recorded as a trace of `Event`s so
  that ordering properties ("flipped before pushed", "callback runs exactly
  once during the flip") are statable.
* The mutex of `getInstance` is likewise recorded as events in a trace.
-/

namespace RiveAndroid

/-- Affinity tags for worker scheduling. The enum itself lives in
`thread.hpp`/`worker_thread.hpp`, which is not among the sources; the spec
names the two scheduling classes, odd and even cores. -/
inductive Affinity where
  | Odd : Affinity
  | Even : Affinity
deriving DecidableEq, Repr

/-- Observable events emitted by pool operations. -/
inductive Event where
  | constructW : Nat → Affinity → Event
  | popPool : Nat → Event
  | setWorking : Bool → Event
  | runCallback : Nat → Event
  | drainQueue : Event
  | pushPool : Nat → Event
deriving DecidableEq, Repr

/-- The mutable state of one `WorkerThread<EGLThreadState>` as far as the
manager observes it: its name, the affinity tag fixed at construction, and
the is-working flag. -/
structure Worker where
  name : String
  affinity : Affinity
  isWorking : Bool
deriving DecidableEq, Repr

/-- Modelled from the spec: `WorkerThread::setIsWorking` is declared in
`worker_thread.hpp`, which is not among the sources. Per the spec it toggles
whether the Worker is considered lent out; the state flip is this field
update, and the single synchronized callback run is emitted in the trace by
`ThreadManager.setIsWorkingOn`. -/
def Worker.setIsWorking (w : Worker) (b : Bool) : Worker :=
  { w with isWorking := b }

/-- Modelled from the spec: `WorkerThread::releaseQueue(onRelease)` is
declared in `worker_thread.hpp`, which is not among the sources. Per the spec
it drains any remaining tasks and runs the release callback; the fields the
manager observes (name, affinity, working flag) are unchanged. -/
def Worker.releaseQueue (w : Worker) : Worker :=
  w

/-- Lookup in the worker heap (pointer dereference). -/
def findWorker : List (Nat × Worker) → Nat → Option Worker
  | [], _ => none
  | p :: rest, i => if p.1 = i then some p.2 else findWorker rest i

/-- In-place mutation of the worker stored at address `i` (what a C++ method
call through a pointer does to the pointee). -/
def updateWorker : List (Nat × Worker) → Nat → (Worker → Worker) → List (Nat × Worker)
  | [], _, _ => []
  | p :: rest, i, f => (if p.1 = i then (p.1, f p.2) else p) :: updateWorker rest i f

/-- State of the `ThreadManager` singleton: the stack `mThreadPool` of idle
worker addresses (head = `top()`), the heap of all allocated workers, and the
allocator counter for fresh addresses. -/
structure ThreadManager where
  pool : List Nat
  heap : List (Nat × Worker)
  nextId : Nat
deriving DecidableEq, Repr

/-- Calling `setIsWorking(b, cb)` on the worker at address `i`: mutates the
pointee and emits the flip event followed by the single callback run (when a
callback was passed). -/
def ThreadManager.setIsWorkingOn (m : ThreadManager) (i : Nat) (b : Bool)
    (cb : Option Nat) : ThreadManager × List Event :=
  ({ m with heap := updateWorker m.heap i (fun w => w.setIsWorking b) },
   Event.setWorking b :: (cb.map Event.runCallback).toList)

/-- Calling `releaseQueue(cb)` on the worker at address `i`: drains the
queue and runs the release callback. -/
def ThreadManager.releaseQueueOn (m : ThreadManager) (i : Nat) (cb : Nat) :
    ThreadManager × List Event :=
  ({ m with heap := updateWorker m.heap i Worker.releaseQueue },
   [Event.drainQueue, Event.runCallback cb])

/-- Embeds `ThreadManager::acquireThread` (worker_thread.cpp lines 18-38):
under the pool lock, if `mThreadPool` is empty construct
`new WorkerThread<EGLThreadState>(name, Affinity::Odd)`, otherwise take
`mThreadPool.top()` and `pop()`; then `thread->setIsWorking(true, onAcquire)`
and return the thread. Returns the worker address, the new manager state and
the event trace. -/
def ThreadManager.acquireThread (m : ThreadManager) (name : String)
    (onAcquire : Nat) : Nat × ThreadManager × List Event :=
  match m.pool with
  | [] =>
      let fresh : Worker := { name := name, affinity := Affinity.Odd, isWorking := false }
      let m1 : ThreadManager :=
        { pool := [], heap := (m.nextId, fresh) :: m.heap, nextId := m.nextId + 1 }
      let r := m1.setIsWorkingOn m.nextId true (some onAcquire)
      (m.nextId, r.1, Event.constructW m.nextId Affinity.Odd :: r.2)
  | t :: rest =>
      let m1 : ThreadManager := { m with pool := rest }
      let r := m1.setIsWorkingOn t true (some onAcquire)
      (t, r.1, Event.popPool t :: r.2)

/-- Embeds `ThreadManager::releaseThread` (worker_thread.cpp lines 40-48):
under the pool lock, `thread->setIsWorking(false)`, then
`thread->releaseQueue(onRelease)`, then `mThreadPool.push(thread)`. There is
no validity check on the argument. -/
def ThreadManager.releaseThread (m : ThreadManager) (i : Nat) (onRelease : Nat) :
    ThreadManager × List Event :=
  let r1 := m.setIsWorkingOn i false none
  let r2 := r1.1.releaseQueueOn i onRelease
  ({ r2.1 with pool := i :: r2.1.pool }, r1.2 ++ r2.2 ++ [Event.pushPool i])

/-- Events of the `getInstance` code path: mutex operations, the null check
on `mInstance` (recording whether it was null), and construction. -/
inductive GIEvent where
  | lockAcquired : GIEvent
  | checkedNull : Bool → GIEvent
  | constructed : GIEvent
  | lockReleased : GIEvent
deriving DecidableEq, Repr

/-- The static state behind `ThreadManager::getInstance`: the raw global
pointer `mInstance` (a heap address, `none` = `nullptr`) and the allocator
counter for fresh addresses. -/
structure GlobalState where
  mInstance : Option Nat
  nextAddr : Nat
deriving DecidableEq, Repr

/-- Embeds `ThreadManager::getInstance` (worker_thread.cpp lines 8-16): a
`std::lock_guard` is taken unconditionally on entry, then `mInstance` is
checked once, constructed if null, and returned; the lock is dropped when
the guard leaves scope. Returns the instance address, the new global state
and the event trace. -/
def getInstance (g : GlobalState) : Nat × GlobalState × List GIEvent :=
  match g.mInstance with
  | none =>
      (g.nextAddr, { mInstance := some g.nextAddr, nextAddr := g.nextAddr + 1 },
       [GIEvent.lockAcquired, GIEvent.checkedNull true, GIEvent.constructed,
        GIEvent.lockReleased])
  | some a =>
      (a, g,
       [GIEvent.lockAcquired, GIEvent.checkedNull false, GIEvent.lockReleased])

/-- Runs `n` successive calls of `getInstance` from global state `g`.
Returns the final global state, the list of returned instance addresses in
call order, and the total number of constructions performed. -/
def runCalls : Nat → GlobalState → GlobalState × List Nat × Nat
  | 0, g => (g, [], 0)
  | n + 1, g =>
      let r := getInstance g
      let rest := runCalls n r.2.1
      (rest.1, r.1 :: rest.2.1, r.2.2.count GIEvent.constructed + rest.2.2)

/-- A client-side step against the manager: acquire a worker (recording the
returned address), or pass the `k`-th address ever returned by an acquire
back to `releaseThread`. Indexing into the addresses already obtained lets a
sequence express double releases and releases of long-gone workers — exactly
what a caller holding a stale pointer can do in the C++ interface. -/
inductive Op where
  | acq : String → Op
  | rel : Nat → Op
deriving DecidableEq, Repr

/-- A manager together with the client-side bookkeeping: `obtained` is the
list of every address an acquire has returned (in call order), and `lent` is
the multiset of addresses currently held by callers — each acquire adds the
returned address, each release of a held address removes one occurrence. -/
structure Sys where
  mgr : ThreadManager
  obtained : List Nat
  lent : List Nat
deriving DecidableEq, Repr

/-- One client step: `acq` calls `acquireThread` and keeps the result;
`rel k` calls `releaseThread` on the `k`-th obtained address (a no-op when
fewer than `k+1` acquires have happened, since the caller then has no such
pointer to pass). -/
def Sys.step (s : Sys) : Op → Sys
  | Op.acq name =>
      let r := s.mgr.acquireThread name 0
      { mgr := r.2.1, obtained := s.obtained ++ [r.1], lent := r.1 :: s.lent }
  | Op.rel k =>
      match s.obtained[k]? with
      | none => s
      | some i =>
          { mgr := (s.mgr.releaseThread i 0).1,
            obtained := s.obtained,
            lent := s.lent.erase i }

/-- The process state right after the manager singleton is constructed: empty
pool, no workers allocated, nothing lent out. -/
def initSys : Sys :=
  { mgr := { pool := [], heap := [], nextId := 0 }, obtained := [], lent := [] }

/-- Runs a sequence of client steps from `s`. -/
def runFrom (s : Sys) : List Op → Sys
  | [] => s
  | op :: rest => runFrom (s.step op) rest

/-- Runs a sequence of client steps from the initial state. -/
def run (ops : List Op) : Sys :=
  runFrom initSys ops

/-- A step honours the release contract when every `rel` passes an address
the caller currently holds (acquired and not yet released since). -/
def okOp (s : Sys) : Op → Bool
  | Op.acq _ => true
  | Op.rel k =>
      match s.obtained[k]? with
      | none => false
      | some i => s.lent.contains i

/-- A sequence of client steps is well formed from `s` when every step
honours the release contract in the state it runs in. -/
def WF (s : Sys) : List Op → Bool
  | [] => true
  | op :: rest => okOp s op && WF (s.step op) rest

/-- The pool/lending invariant: no address occurs twice across the idle pool
and the lent-out multiset (each worker is pooled XOR lent out), and every
such address was handed out by the allocator. -/
def Inv (s : Sys) : Prop :=
  (s.mgr.pool ++ s.lent).Nodup ∧
  ∀ i ∈ s.mgr.pool ++ s.lent, i < s.mgr.nextId

/-- Embeds `Java_app_rive_runtime_kotlin_core_StateMachineInstance_cppInputCount`
(bindings_state_machine_instance.cpp lines 62-70): the body computes
`(jlong)stateMachineInstance->inputCount()` — a cast of the count to a 64-bit
value — while the function is declared to return a 32-bit `jint`, so the
returned 64-bit value is truncated to its low 32 bits at the return. Values
are modelled as unsigned bit patterns. -/
def cppInputCount (inputCount : Nat) : Nat :=
  let asJlong := inputCount % 2 ^ 64
  asJlong % 2 ^ 32

/-! ### Helper lemmas about the worker heap -/

theorem findWorker_updateWorker_self (h : List (Nat × Worker)) (i : Nat)
    (f : Worker → Worker) :
    findWorker (updateWorker h i f) i = (findWorker h i).map f := by
  induction h with
  | nil => rfl
  | cons p rest ih =>
      by_cases hp : p.1 = i
      · simp [updateWorker, findWorker, hp]
      · simp [updateWorker, findWorker, hp, ih]

theorem findWorker_updateWorker_ne (h : List (Nat × Worker)) (i j : Nat)
    (f : Worker → Worker) (hij : j ≠ i) :
    findWorker (updateWorker h i f) j = findWorker h j := by
  induction h with
  | nil => rfl
  | cons p rest ih =>
      by_cases hp : p.1 = i
      · simp [updateWorker, findWorker, hp, Ne.symm hij, ih]
      · by_cases hq : p.1 = j
        · simp [updateWorker, findWorker, hp, hq, hij, ih]
        · simp [updateWorker, findWorker, hp, hq, ih]

theorem isWorking_of_find_update_true (h : List (Nat × Worker)) (i : Nat)
    (w : Worker)
    (hw : findWorker (updateWorker h i (fun x => x.setIsWorking true)) i = some w) :
    w.isWorking = true := by
  rw [findWorker_updateWorker_self] at hw
  cases hf : findWorker h i with
  | none => rw [hf] at hw; cases hw
  | some w0 =>
      rw [hf] at hw
      simp only [Option.map_some'] at hw
      cases hw
      rfl

/-! ### C6, C7, C8, C9: pool operation contracts -/

/-- C6: for every call to `acquireThread`, if the idle pool is non-empty the
returned worker is the pool top, which is removed, and nothing is constructed
(the allocator counter is untouched and the trace records a pop, not a
construction); if the pool is empty a freshly constructed worker is returned;
in both cases the returned worker ends up flipped to working and the acquire
callback runs exactly once, immediately after the flip, as the trace
equality shows. -/
theorem C6_acquire_spec (m : ThreadManager) (name : String) (cb : Nat) :
    (∀ t rest, m.pool = t :: rest →
        (m.acquireThread name cb).1 = t ∧
        (m.acquireThread name cb).2.1.pool = rest ∧
        (m.acquireThread name cb).2.1.nextId = m.nextId ∧
        (m.acquireThread name cb).2.2 =
          [Event.popPool t, Event.setWorking true, Event.runCallback cb]) ∧
    (m.pool = [] →
        (m.acquireThread name cb).1 = m.nextId ∧
        (m.acquireThread name cb).2.1.nextId = m.nextId + 1 ∧
        findWorker (m.acquireThread name cb).2.1.heap m.nextId =
          some { name := name, affinity := Affinity.Odd, isWorking := true } ∧
        (m.acquireThread name cb).2.2 =
          [Event.constructW m.nextId Affinity.Odd, Event.setWorking true,
           Event.runCallback cb]) ∧
    (∀ w, findWorker (m.acquireThread name cb).2.1.heap (m.acquireThread name cb).1
        = some w → w.isWorking = true) := by
  refine ⟨?_, ?_, ?_⟩
  · intro t rest hp
    simp [ThreadManager.acquireThread, ThreadManager.setIsWorkingOn, hp]
  · intro hp
    refine ⟨?_, ?_, ?_, ?_⟩ <;>
      simp [ThreadManager.acquireThread, ThreadManager.setIsWorkingOn, hp,
            findWorker_updateWorker_self, findWorker, Worker.setIsWorking]
  · intro w hw
    cases hp : m.pool with
    | nil =>
        simp only [ThreadManager.acquireThread, ThreadManager.setIsWorkingOn, hp] at hw
        exact isWorking_of_find_update_true _ _ _ hw
    | cons t rest =>
        simp only [ThreadManager.acquireThread, ThreadManager.setIsWorkingOn, hp] at hw
        exact isWorking_of_find_update_true _ _ _ hw

/-- C6 witness: acquiring from a pool holding worker 3 returns worker 3,
leaves the pool empty, constructs nothing, and the trace is the pop followed
by the flip and the single callback run. -/
theorem C6_acquire_spec_witness :
    (ThreadManager.acquireThread
        ⟨[3], [(3, ⟨"p", Affinity.Odd, false⟩)], 4⟩ "n" 2).1 = 3 ∧
    (ThreadManager.acquireThread
        ⟨[3], [(3, ⟨"p", Affinity.Odd, false⟩)], 4⟩ "n" 2).2.1.pool = [] ∧
    (ThreadManager.acquireThread
        ⟨[3], [(3, ⟨"p", Affinity.Odd, false⟩)], 4⟩ "n" 2).2.1.nextId = 4 ∧
    (ThreadManager.acquireThread
        ⟨[3], [(3, ⟨"p", Affinity.Odd, false⟩)], 4⟩ "n" 2).2.2 =
      [Event.popPool 3, Event.setWorking true, Event.runCallback 2] :=
  (C6_acquire_spec ⟨[3], [(3, ⟨"p", Affinity.Odd, false⟩)], 4⟩ "n" 2).1 3 [] rfl

/-- C7: `releaseThread` performs, in order, the flip to not-working, the
queue drain via `releaseQueue` with the release callback, and only then the
push onto the pool — the trace equality fixes that order — and the worker
record that sits in the heap when it is pushed is not working. -/
theorem C7_release_order (m : ThreadManager) (i cb : Nat) (w : Worker)
    (hw : findWorker m.heap i = some w) :
    (m.releaseThread i cb).2 =
      [Event.setWorking false, Event.drainQueue, Event.runCallback cb,
       Event.pushPool i] ∧
    (m.releaseThread i cb).1.pool = i :: m.pool ∧
    findWorker (m.releaseThread i cb).1.heap i = some { w with isWorking := false } := by
  refine ⟨rfl, rfl, ?_⟩
  simp [ThreadManager.releaseThread, ThreadManager.setIsWorkingOn,
        ThreadManager.releaseQueueOn, findWorker_updateWorker_self, hw,
        Worker.setIsWorking, Worker.releaseQueue]

/-- C7 witness: releasing worker 0 (currently working) flips it, drains its
queue with callback 7, and pushes it, in that order. -/
theorem C7_release_order_witness :
    (ThreadManager.releaseThread ⟨[], [(0, ⟨"w", Affinity.Odd, true⟩)], 1⟩ 0 7).2 =
      [Event.setWorking false, Event.drainQueue, Event.runCallback 7,
       Event.pushPool 0] ∧
    (ThreadManager.releaseThread ⟨[], [(0, ⟨"w", Affinity.Odd, true⟩)], 1⟩ 0 7).1.pool
      = [0] ∧
    findWorker
      (ThreadManager.releaseThread
        ⟨[], [(0, ⟨"w", Affinity.Odd, true⟩)], 1⟩ 0 7).1.heap 0
      = some ⟨"w", Affinity.Odd, false⟩ :=
  C7_release_order ⟨[], [(0, ⟨"w", Affinity.Odd, true⟩)], 1⟩ 0 7
    ⟨"w", Affinity.Odd, true⟩ rfl

/-- C8: from any manager state, acquire a worker, release it, acquire again:
the second acquire returns the very same worker, constructs nothing (the
allocator counter is untouched and the trace records a pop of that worker,
not a construction). -/
theorem C8_lifo_reuse (m : ThreadManager) (n1 n2 : String) (c1 cR c2 : Nat) :
    ((((m.acquireThread n1 c1).2.1.releaseThread
          (m.acquireThread n1 c1).1 cR).1.acquireThread n2 c2).1
        = (m.acquireThread n1 c1).1) ∧
    ((((m.acquireThread n1 c1).2.1.releaseThread
          (m.acquireThread n1 c1).1 cR).1.acquireThread n2 c2).2.1.nextId
        = (m.acquireThread n1 c1).2.1.nextId) ∧
    ((((m.acquireThread n1 c1).2.1.releaseThread
          (m.acquireThread n1 c1).1 cR).1.acquireThread n2 c2).2.2
        = [Event.popPool (m.acquireThread n1 c1).1, Event.setWorking true,
           Event.runCallback c2]) := by
  cases hm : m.pool <;>
    simp [ThreadManager.acquireThread, ThreadManager.releaseThread,
          ThreadManager.setIsWorkingOn, ThreadManager.releaseQueueOn, hm]

/-- C9: the pool operations only touch the stack top. A non-empty acquire
removes exactly the top and leaves every other pooled worker in place and
unchanged in the heap; an empty acquire leaves the pool empty; a release
changes the pool only by pushing the given worker on top and leaves every
other worker's heap record unchanged. -/
theorem C9_frame (m : ThreadManager) (name : String) (cb i cbR : Nat) :
    (m.pool = [] → (m.acquireThread name cb).2.1.pool = []) ∧
    (∀ t rest, m.pool = t :: rest →
        (m.acquireThread name cb).2.1.pool = rest ∧
        ∀ j, j ≠ t →
          findWorker (m.acquireThread name cb).2.1.heap j = findWorker m.heap j) ∧
    ((m.releaseThread i cbR).1.pool = i :: m.pool ∧
      ∀ j, j ≠ i →
        findWorker (m.releaseThread i cbR).1.heap j = findWorker m.heap j) := by
  refine ⟨?_, ?_, rfl, ?_⟩
  · intro hp
    simp [ThreadManager.acquireThread, ThreadManager.setIsWorkingOn, hp]
  · intro t rest hp
    refine ⟨?_, ?_⟩
    · simp [ThreadManager.acquireThread, ThreadManager.setIsWorkingOn, hp]
    · intro j hj
      simp [ThreadManager.acquireThread, ThreadManager.setIsWorkingOn, hp,
            findWorker_updateWorker_ne _ _ _ _ hj]
  · intro j hj
    simp [ThreadManager.releaseThread, ThreadManager.setIsWorkingOn,
          ThreadManager.releaseQueueOn,
          findWorker_updateWorker_ne _ _ _ _ hj]

/-- C9 witness: releasing worker 2 onto a pool holding worker 1 yields pool
(2, 1) and does not disturb worker 1's heap record. -/
theorem C9_frame_witness :
    (ThreadManager.releaseThread
        ⟨[1], [(1, ⟨"a", Affinity.Odd, false⟩), (2, ⟨"b", Affinity.Odd, true⟩)], 3⟩
        2 0).1.pool = [2, 1] ∧
    findWorker
      (ThreadManager.releaseThread
        ⟨[1], [(1, ⟨"a", Affinity.Odd, false⟩), (2, ⟨"b", Affinity.Odd, true⟩)], 3⟩
        2 0).1.heap 1
      = findWorker
          [(1, ⟨"a", Affinity.Odd, false⟩), (2, ⟨"b", Affinity.Odd, true⟩)] 1 :=
  ⟨(C9_frame ⟨[1], [(1, ⟨"a", Affinity.Odd, false⟩), (2, ⟨"b", Affinity.Odd, true⟩)], 3⟩
      "x" 0 2 0).2.2.1,
   (C9_frame ⟨[1], [(1, ⟨"a", Affinity.Odd, false⟩), (2, ⟨"b", Affinity.Odd, true⟩)], 3⟩
      "x" 0 2 0).2.2.2 1 (by decide)⟩

/-- C10: the JNI binding declares a 32-bit return while the body casts the
count to 64 bits, so the value that crosses the interface is the count
reduced modulo 2^32, and it equals the true count exactly when the count
fits in 32 bits. -/
theorem C10_input_count_truncation (c : Nat) :
    cppInputCount c = c % 2 ^ 32 ∧ (cppInputCount c = c ↔ c < 2 ^ 32) := by
  have h : cppInputCount c = c % 2 ^ 64 % 2 ^ 32 := rfl
  have e64 : (2 : Nat) ^ 64 = 18446744073709551616 := by norm_num
  have e32 : (2 : Nat) ^ 32 = 4294967296 := by norm_num
  rw [h, e64, e32]
  exact ⟨by omega, by omega⟩

/-- C10 witness: an input count of 2^32 is delivered as 0, not as itself. -/
theorem C10_input_count_truncation_witness :
    cppInputCount 4294967296 = 4294967296 % 2 ^ 32 ∧
    (cppInputCount 4294967296 = 4294967296 ↔ 4294967296 < 2 ^ 32) :=
  C10_input_count_truncation 4294967296

/-! ### C1: affinity assignment -/

/-- C1 counterexample: constructing two successive workers (two acquires on
an empty pool with no release in between) assigns both the tag
`Affinity.Odd` — the second constructed worker's tag equals the first's, so
successive constructions do not alternate across the two affinity classes as
the claim states (the call site passes the constant `Affinity::Odd`). -/
theorem C1_counterexample :
    (findWorker (ThreadManager.acquireThread
        (ThreadManager.acquireThread ⟨[], [], 0⟩ "w1" 0).2.1 "w2" 0).2.1.heap
        0).map Worker.affinity = some Affinity.Odd ∧
    (findWorker (ThreadManager.acquireThread
        (ThreadManager.acquireThread ⟨[], [], 0⟩ "w1" 0).2.1 "w2" 0).2.1.heap
        1).map Worker.affinity = some Affinity.Odd ∧
    (findWorker (ThreadManager.acquireThread
        (ThreadManager.acquireThread ⟨[], [], 0⟩ "w1" 0).2.1 "w2" 0).2.1.heap
        1).map Worker.affinity =
      (findWorker (ThreadManager.acquireThread
        (ThreadManager.acquireThread ⟨[], [], 0⟩ "w1" 0).2.1 "w2" 0).2.1.heap
        0).map Worker.affinity :=
  ⟨rfl, rfl, rfl⟩

/-- C1 amended: every newly constructed worker is assigned the same fixed
affinity tag `Affinity.Odd`; no rotation across affinity classes takes
place. -/
theorem C1_always_odd (m : ThreadManager) (name : String) (cb : Nat)
    (h : m.pool = []) :
    (m.acquireThread name cb).2.2 =
      [Event.constructW m.nextId Affinity.Odd, Event.setWorking true,
       Event.runCallback cb] ∧
    (findWorker (m.acquireThread name cb).2.1.heap m.nextId).map Worker.affinity
      = some Affinity.Odd := by
  constructor
  · simp [ThreadManager.acquireThread, ThreadManager.setIsWorkingOn, h]
  · simp [ThreadManager.acquireThread, ThreadManager.setIsWorkingOn, h,
          findWorker_updateWorker_self, findWorker, Worker.setIsWorking]

/-- C1 witness: a construction from an empty pool at allocator position 7
gets tag `Affinity.Odd`. -/
theorem C1_always_odd_witness :
    (ThreadManager.acquireThread ⟨[], [], 7⟩ "n" 5).2.2 =
      [Event.constructW 7 Affinity.Odd, Event.setWorking true,
       Event.runCallback 5] ∧
    (findWorker (ThreadManager.acquireThread ⟨[], [], 7⟩ "n" 5).2.1.heap 7).map
        Worker.affinity = some Affinity.Odd :=
  C1_always_odd ⟨[], [], 7⟩ "n" 5 rfl

/-! ### C2: getInstance locking discipline -/

/-- C2 counterexample: the second `getInstance` call — the instance is
already constructed — still produces the trace lock, check, unlock: the lock
is acquired before any check of the pointer and on every call, refuting both
the check-without-lock fast path and that calls after the first do not take
the lock. -/
theorem C2_counterexample :
    (getInstance (getInstance { mInstance := none, nextAddr := 0 }).2.1).2.2 =
      [GIEvent.lockAcquired, GIEvent.checkedNull false, GIEvent.lockReleased] ∧
    GIEvent.lockAcquired ∈
      (getInstance (getInstance { mInstance := none, nextAddr := 0 }).2.1).2.2 := by
  exact ⟨rfl, by decide⟩

/-- C2 amended: `getInstance` acquires the lock unconditionally on every
call — the first event of every call is the lock acquisition, before the
null check — performs exactly one null check, under the lock, and constructs
the instance exactly when the pointer was null. -/
theorem C2_lock_every_call (g : GlobalState) :
    (getInstance g).2.2.head? = some GIEvent.lockAcquired ∧
    (getInstance g).2.2.count (GIEvent.checkedNull g.mInstance.isNone) = 1 ∧
    (GIEvent.constructed ∈ (getInstance g).2.2 ↔ g.mInstance = none) ∧
    (getInstance g).2.1.mInstance.isSome = true := by
  obtain ⟨gi, ga⟩ := g
  cases gi <;> simp [getInstance, List.count_cons]

/-- C2 witness: on a first call (null instance) the lock is acquired first,
the single null check sees null, and the construction happens. -/
theorem C2_lock_every_call_witness :
    (getInstance { mInstance := none, nextAddr := 0 }).2.2.head? =
      some GIEvent.lockAcquired ∧
    (getInstance { mInstance := none, nextAddr := 0 }).2.2.count
      (GIEvent.checkedNull true) = 1 ∧
    GIEvent.constructed ∈ (getInstance { mInstance := none, nextAddr := 0 }).2.2 ∧
    (getInstance { mInstance := none, nextAddr := 0 }).2.1.mInstance.isSome = true := by
  have h := C2_lock_every_call { mInstance := none, nextAddr := 0 }
  exact ⟨h.1, h.2.1, h.2.2.1.mpr rfl, h.2.2.2⟩

/-! ### C3: releaseThread performs no validity check -/

/-- C3 counterexample: releasing worker 0 while it already sits in the idle
pool completes normally and pushes it again (the pool then holds it twice),
and releasing worker 5, which was never acquired from the manager, likewise
completes normally and pushes it — no fatal assertion exists on this path
(worker_thread.cpp lines 40-48 contain no check). -/
theorem C3_counterexample :
    (ThreadManager.releaseThread
        ⟨[0], [(0, ⟨"w", Affinity.Odd, false⟩)], 1⟩ 0 0).1.pool = [0, 0] ∧
    (ThreadManager.releaseThread
        ⟨[], [(5, ⟨"x", Affinity.Odd, true⟩)], 0⟩ 5 0).1.pool = [5] :=
  ⟨rfl, rfl⟩

/-- C3 amended: `releaseThread` validates nothing: for every worker argument,
including one already in the idle pool or never acquired from the manager,
the call completes normally and unconditionally pushes the worker onto the
pool, incrementing its occurrence count there — a double release therefore
duplicates the pool entry instead of failing loudly. -/
theorem C3_release_unchecked (m : ThreadManager) (i cb : Nat) :
    (m.releaseThread i cb).1.pool = i :: m.pool ∧
    (m.releaseThread i cb).1.pool.count i = m.pool.count i + 1 := by
  refine ⟨rfl, ?_⟩
  have h : (m.releaseThread i cb).1.pool = i :: m.pool := rfl
  rw [h, List.count_cons_self]

/-! ### C5: the singleton is constructed at most once -/

theorem runCalls_const (n : Nat) (a k : Nat) :
    runCalls n { mInstance := some a, nextAddr := k } =
      ({ mInstance := some a, nextAddr := k }, List.replicate n a, 0) := by
  induction n with
  | zero => rfl
  | succ n ih => simp [runCalls, getInstance, ih, List.replicate_succ]

/-- C5: over any number `n` of successive `getInstance` calls starting from
the null global pointer, every call returns the same instance address 0,
the total number of constructions performed is at most one, and once any
call has happened the global pointer is non-null and holds that same
address. -/
theorem C5_singleton (n : Nat) :
    (runCalls n { mInstance := none, nextAddr := 0 }).2.1 = List.replicate n 0 ∧
    (runCalls n { mInstance := none, nextAddr := 0 }).2.2 ≤ 1 ∧
    (runCalls n { mInstance := none, nextAddr := 0 }).1.mInstance
      = if n = 0 then none else some 0 := by
  cases n with
  | zero => simp [runCalls]
  | succ m =>
      simp [runCalls, getInstance, runCalls_const, List.replicate_succ]

/-! ### C4: the pool XOR lent-out invariant -/

theorem releaseThread_pool (m : ThreadManager) (i cb : Nat) :
    (m.releaseThread i cb).1.pool = i :: m.pool := rfl

theorem inv_step (s : Sys) (op : Op) (hInv : Inv s) (hOk : okOp s op = true) :
    Inv (s.step op) := by
  obtain ⟨hN, hB⟩ := hInv
  cases op with
  | acq name =>
      cases hp : s.mgr.pool with
      | nil =>
          rw [hp] at hN hB
          simp only [List.nil_append] at hN hB
          constructor
          · simp only [Sys.step, ThreadManager.acquireThread,
                       ThreadManager.setIsWorkingOn, hp, List.nil_append,
                       List.nodup_cons]
            exact ⟨fun hmem => absurd (hB _ hmem) (lt_irrefl _), hN⟩
          · intro i hi
            simp only [Sys.step, ThreadManager.acquireThread,
                       ThreadManager.setIsWorkingOn, hp, List.nil_append,
                       List.mem_cons] at hi ⊢
            rcases hi with rfl | hi
            · exact Nat.lt_succ_self _
            · exact Nat.lt_succ_of_lt (hB _ hi)
      | cons t rest =>
          rw [hp] at hN hB
          constructor
          · simp only [Sys.step, ThreadManager.acquireThread,
                       ThreadManager.setIsWorkingOn, hp]
            exact List.perm_middle.nodup_iff.mpr (by simpa using hN)
          · intro i hi
            simp only [Sys.step, ThreadManager.acquireThread,
                       ThreadManager.setIsWorkingOn, hp] at hi ⊢
            apply hB
            have := List.perm_middle.mem_iff.mp hi
            simpa using this
  | rel k =>
      cases ho : s.obtained[k]? with
      | none => simp [okOp, ho] at hOk
      | some i =>
          have hi : i ∈ s.lent := by
            simp only [okOp, ho] at hOk
            simpa using hOk
          rw [List.nodup_append] at hN
          obtain ⟨hpN, hlN, hd⟩ := hN
          have hip : i ∉ s.mgr.pool := fun hip => hd hip hi
          have hie : i ∉ s.lent.erase i := fun he =>
            absurd (hlN.mem_erase_iff.mp he).1 (by simp)
          constructor
          · simp only [Sys.step, ho]
            show ((i :: s.mgr.pool) ++ s.lent.erase i).Nodup
            rw [List.cons_append, List.nodup_cons, List.nodup_append]
            refine ⟨?_, hpN, hlN.erase i, ?_⟩
            · intro hmem
              rcases List.mem_append.mp hmem with h1 | h1
              · exact hip h1
              · exact hie h1
            · intro a ha hae
              exact hd ha (List.erase_subset _ _ hae)
          · intro j hj
            simp only [Sys.step, ho]
            show j < s.mgr.nextId
            have hj2 : j ∈ (i :: s.mgr.pool) ++ s.lent.erase i := by
              simpa [Sys.step, ho, releaseThread_pool] using hj
            rcases List.mem_append.mp hj2 with h1 | h1
            · rcases List.mem_cons.mp h1 with rfl | h1
              · exact hB _ (List.mem_append.mpr (Or.inr hi))
              · exact hB _ (List.mem_append.mpr (Or.inl h1))
            · exact hB _ (List.mem_append.mpr (Or.inr (List.erase_subset _ _ h1)))

theorem inv_runFrom (ops : List Op) (s : Sys) (hInv : Inv s)
    (hWF : WF s ops = true) : Inv (runFrom s ops) := by
  induction ops generalizing s with
  | nil => exact hInv
  | cons op rest ih =>
      simp only [WF, Bool.and_eq_true] at hWF
      exact ih _ (inv_step s op hInv hWF.1) hWF.2

/-- C4 counterexample: the client sequence acquire, release, release the
same pointer again, acquire — expressible through the C++ interface, which
takes a raw pointer — reaches a state in which worker 0 sits in the idle
pool while it is also lent out to the caller of the last acquire, and a
further acquire from that state hands out worker 0 again even though it is
still lent out: the claimed invariant fails for this sequence of
`acquireThread`/`releaseThread` calls. -/
theorem C4_counterexample :
    (0 ∈ (run [Op.acq "a", Op.rel 0, Op.rel 0, Op.acq "b"]).mgr.pool ∧
     0 ∈ (run [Op.acq "a", Op.rel 0, Op.rel 0, Op.acq "b"]).lent) ∧
    ((run [Op.acq "a", Op.rel 0, Op.rel 0, Op.acq "b"]).mgr.acquireThread "c" 0).1
        ∈ (run [Op.acq "a", Op.rel 0, Op.rel 0, Op.acq "b"]).lent := by
  decide

/-- C4 amended: the claimed invariant holds exactly for the well-formed call
sequences — those in which every `releaseThread` passes a worker currently
lent out (acquired and not released since). For every such sequence, no
worker is simultaneously in the idle pool and lent out (no address occurs
twice across pool and lent-out workers), and a further `acquireThread`
never returns a worker that is still lent out. Arbitrary sequences (e.g.
containing a double release) violate the invariant, as the counterexample
shows. -/
theorem C4_pool_xor_lent (ops : List Op) (h : WF initSys ops = true) :
    ((run ops).mgr.pool ++ (run ops).lent).Nodup ∧
    ∀ name cb, ((run ops).mgr.acquireThread name cb).1 ∉ (run ops).lent := by
  have hInv : Inv (run ops) :=
    inv_runFrom ops initSys ⟨by simp [initSys], by simp [initSys]⟩ h
  obtain ⟨hN, hB⟩ := hInv
  refine ⟨hN, ?_⟩
  intro name cb hmem
  cases hp : (run ops).mgr.pool with
  | nil =>
      simp only [ThreadManager.acquireThread, ThreadManager.setIsWorkingOn, hp]
        at hmem
      exact absurd (hB _ (by simp [hp, hmem])) (lt_irrefl _)
  | cons t rest =>
      simp only [ThreadManager.acquireThread, ThreadManager.setIsWorkingOn, hp]
        at hmem
      rw [hp, List.cons_append, List.nodup_cons] at hN
      exact hN.1 (List.mem_append.mpr (Or.inr hmem))

/-- C4 witness: the well-formed sequence acquire, release, acquire keeps the
pool and the lent-out workers disjoint, and the next acquire from the final
state does not return a lent-out worker. -/
theorem C4_pool_xor_lent_witness :
    ((run [Op.acq "a", Op.rel 0, Op.acq "b"]).mgr.pool ++
      (run [Op.acq "a", Op.rel 0, Op.acq "b"]).lent).Nodup ∧
    ((run [Op.acq "a", Op.rel 0, Op.acq "b"]).mgr.acquireThread "c" 0).1
      ∉ (run [Op.acq "a", Op.rel 0, Op.acq "b"]).lent := by
  have h := C4_pool_xor_lent [Op.acq "a", Op.rel 0, Op.acq "b"] (by decide)
  exact ⟨h.1, h.2 "c" 0⟩

end RiveAndroid
